import Mathlib

/-!
Shallow embedding of the verification-relevant core of the Bull-Arc client:

* the burner-wallet adapter (src/unnamed/part_005, class BurnerWalletAdapter):
  load/expiry/connect/disconnect/sign/getTimeRemaining over a browser
  local-storage record;
* the component that writes the wallet record (src/components/BurnerWallet.tsx,
  createBurnerWallet);
* the sliding-window rate limiter and retry loop of
  src/services/portfolioService.ts (canMakeRequest, waitForRateLimit,
  fetchWithRetry);
* the TTL cache and CORS fetch helper of src/unnamed/part_010
  (getCachedData, setCachedData, checkRateLimit, fetchWithCORS).

Times are modelled as Int milliseconds since the epoch (the value of
Date.now()).  JavaScript async suspension points are modelled by explicit
time oracles; fallible code returns Except or Option.
-/

namespace BullArc

/-! ## Wallet data model (part_005 and BurnerWallet.tsx) -/

/-- 24 * 60 * 60 * 1000 ms, the EXPIRY_TIME constant of BurnerWalletAdapter. -/
def EXPIRY_TIME : Int := 24 * 60 * 60 * 1000

/-- A solana keypair: the 64-byte secret key.  Keypair.fromSecretKey accepts
exactly 64 bytes; the public key is the last 32 bytes of the secret key. -/
structure Keypair where
  secretKey : List Nat
deriving DecidableEq, Repr

/-- The public-key bytes of a keypair (last 32 bytes of the secret key,
per the solana keypair layout). -/
def Keypair.publicKeyBytes (kp : Keypair) : List Nat :=
  kp.secretKey.drop 32

/-- Keypair.fromSecretKey: succeeds on a 64-byte secret key, throws
otherwise. -/
def Keypair.fromSecretKey (sk : List Nat) : Option Keypair :=
  if sk.length = 64 then some ⟨sk⟩ else none

/-- The parsed JSON record stored under the localStorage key burnerWallet.
createdAt is the millisecond instant denoted by the persisted ISO-8601
string (new Date(createdAt).getTime()).  username and email are present in
records written by BurnerWallet.tsx and absent otherwise; the adapter
destructures only secretKey and createdAt, so extra fields are tolerated. -/
structure WalletRecord where
  publicKey : String
  secretKey : List Nat
  username : Option String := none
  email : Option String := none
  createdAt : Int
deriving DecidableEq, Repr

/-- Contents of localStorage at the key burnerWallet: either a string that
JSON.parse accepts, holding a wallet record, or a string it rejects. -/
inductive StoredData
  | record (r : WalletRecord)
  | corrupt
deriving DecidableEq, Repr

/-- The in-memory fields of BurnerWalletAdapter plus the persisted slot.
timer holds the absolute deadline of the armed _disconnectTimer. -/
structure AdapterState where
  keypair : Option Keypair
  connecting : Bool
  connected : Bool
  timer : Option Int
  storage : Option StoredData
deriving DecidableEq, Repr

/-- Errors raised by the adapter (from @solana/wallet-adapter-base). -/
inductive WalletErr
  | connectionError (msg : String)
  | notConnectedError
  | disconnectionError
deriving DecidableEq, Repr

/-- clearWallet: drop the keypair, mark disconnected, remove the persisted
record and cancel the timer (then emit disconnect). -/
def clearWallet (s : AdapterState) : AdapterState :=
  { s with keypair := none, connected := false, storage := none, timer := none }

/-- setupDisconnectTimer(creationTime): timeLeft = EXPIRY_TIME - (now -
creationTime); if timeLeft <= 0 clear immediately, otherwise arm the timer
to fire timeLeft ms from now. -/
def setupDisconnectTimer (s : AdapterState) (creationTime now : Int) : AdapterState :=
  if EXPIRY_TIME - (now - creationTime) ≤ 0 then clearWallet s
  else { s with timer := some (now + (EXPIRY_TIME - (now - creationTime))) }

/-- loadBurnerWallet, run at time now: read the record; on a parse or
fromSecretKey failure the catch block clears the wallet; an expired record
(now - createdAt > EXPIRY_TIME) is cleared; otherwise the keypair is set and
the disconnect timer armed.  (The trailing reconnect call is a no-op: connect
returns early when _connected is already true.) -/
def loadBurnerWallet (s : AdapterState) (now : Int) : AdapterState :=
  match s.storage with
  | none => s
  | some .corrupt => clearWallet s
  | some (.record r) =>
    if now - r.createdAt > EXPIRY_TIME then clearWallet s
    else
      match Keypair.fromSecretKey r.secretKey with
      | none => clearWallet s
      | some kp => setupDisconnectTimer { s with keypair := some kp } r.createdAt now

/-- connect(): no-op when already connecting or connected; with no keypair
in memory it throws WalletConnectionError (message from the inner throw,
rewrapped by the catch); otherwise it marks the adapter connected.
_connecting is set and then reset in the finally block, so the resulting
state carries connecting = false on every path it was false on entry. -/
def connect (s : AdapterState) : Except WalletErr Unit × AdapterState :=
  if s.connecting || s.connected then (.ok (), s)
  else
    match s.keypair with
    | none => (.error (.connectionError "No burner wallet found"), s)
    | some _ => (.ok (), { s with connected := true })

/-- disconnect(): clearWallet, never fails. -/
def disconnect (s : AdapterState) : Except WalletErr Unit × AdapterState :=
  (.ok (), clearWallet s)

/-- A transaction: an opaque payload and the list of signatures appended so
far (partialSign appends a signature by the given keypair). -/
structure Tx where
  payload : Nat
  signatures : List (List Nat)
deriving DecidableEq, Repr

/-- signTransaction: throws WalletNotConnectedError unless connected and a
keypair is present; otherwise partialSign appends the signature and the
transaction is returned. -/
def signTransaction (s : AdapterState) (tx : Tx) : Except WalletErr Tx :=
  match s.keypair, s.connected with
  | some kp, true => .ok { tx with signatures := tx.signatures ++ [kp.publicKeyBytes] }
  | _, _ => .error .notConnectedError

/-- signAllTransactions: Promise.all over signTransaction on each element;
the value is that of each individual call, and a rejection (which here
depends only on the adapter state) rejects the whole batch. -/
def signAllTransactions (s : AdapterState) (txs : List Tx) : Except WalletErr (List Tx) :=
  txs.mapM (signTransaction s)

/-- getTimeRemaining(): returns 0 with no persisted record; otherwise parses
the record (JSON.parse — there is no try/catch here, so a corrupt record
propagates the parse error) and returns max(0, EXPIRY_TIME - (now -
createdAt)). -/
def getTimeRemaining (storage : Option StoredData) (now : Int) : Except Unit Int :=
  match storage with
  | none => .ok 0
  | some .corrupt => .error ()
  | some (.record r) => .ok (max 0 (EXPIRY_TIME - (now - r.createdAt)))

/-- States reachable by the adapter, paired with the current time.  Steps:
construction/visibility-regain (loadBurnerWallet), connect, disconnect, the
armed timer firing (setTimeout guarantees only that the callback does not run
before its deadline — background-tab throttling can postpone it, which is why
the source installs a visibilitychange reload), external writes to the
localStorage slot (e.g. BurnerWallet.tsx), and the passage of time. -/
inductive Reach : AdapterState → Int → Prop
  | init (storage : Option StoredData) (t : Int) :
      Reach ⟨none, false, false, none, storage⟩ t
  | load {s t} (t' : Int) : Reach s t → t ≤ t' → Reach (loadBurnerWallet s t') t'
  | conn {s t} (t' : Int) : Reach s t → t ≤ t' → Reach (connect s).2 t'
  | disc {s t} (t' : Int) : Reach s t → t ≤ t' → Reach (disconnect s).2 t'
  | fire {s t d} (t' : Int) : Reach s t → s.timer = some d → t ≤ t' → d ≤ t' →
      Reach (clearWallet s) t'
  | store {s t} (o : Option StoredData) (t' : Int) : Reach s t → t ≤ t' →
      Reach { s with storage := o } t'
  | wait {s t} (t' : Int) : Reach s t → t ≤ t' → Reach s t'

/-! ## Wallet creation (BurnerWallet.tsx, createBurnerWallet) -/

/-- A JSON value as rendered into the persisted wallet record.  b58 stands
for the base-58 rendering of the given bytes (publicKey.toBase58()),
bytesArr for a JSON array of byte values (Array.from(secretKey)), iso for
the ISO-8601 rendering of the given instant (new Date().toISOString()). -/
inductive JsonVal
  | b58 (bytes : List Nat)
  | bytesArr (bytes : List Nat)
  | iso (ms : Int)
  | str (s : String)
deriving DecidableEq, Repr

/-- publicKey.toBase58(): an injective string rendering of the public-key
bytes.  The claims never inspect the base-58 alphabet itself, so any
injective rendering represents it faithfully. -/
def base58 (bytes : List Nat) : String :=
  toString (repr bytes)

/-- The object literal built by createBurnerWallet and passed to
JSON.stringify, as its ordered field list:
{ publicKey, secretKey, username, email, createdAt }. -/
def createBurnerWalletJson (kp : Keypair) (username email : String) (now : Int) :
    List (String × JsonVal) :=
  [("publicKey", .b58 kp.publicKeyBytes),
   ("secretKey", .bytesArr kp.secretKey),
   ("username", .str username),
   ("email", .str email),
   ("createdAt", .iso now)]

/-- createBurnerWallet(username, email): generate a keypair (kp, supplied by
the crypto primitive), build the record with createdAt = now and store it
under the localStorage key burnerWallet before anything else runs.  The
adapter state is untouched: this component writes only to storage (no expiry
timer is armed here). -/
def createBurnerWallet (kp : Keypair) (username email : String) (now : Int) :
    Option StoredData :=
  some (.record
    { publicKey := base58 kp.publicKeyBytes
      secretKey := kp.secretKey
      username := some username
      email := some email
      createdAt := now })

/-! ## Sliding-window rate limiter and retry loop (portfolioService.ts)

window is CONFIG.REQUEST_WINDOW (60000 ms) and maxReq is
CONFIG.MAX_REQUESTS_PER_WINDOW (default 30); they are kept as parameters.
requestTimestamps is the module-level mutable array, threaded explicitly. -/

/-- The pruning loop of canMakeRequest: shift off leading timestamps with
requestTimestamps[0] < now - REQUEST_WINDOW (strict comparison). -/
def pruneWindow (window now : Int) (ts : List Int) : List Int :=
  ts.dropWhile (fun t => t < now - window)

/-- canMakeRequest(): prune, then admit iff the remaining count is below
the maximum.  Returns the admission verdict and the pruned array. -/
def canMakeRequest (window : Int) (maxReq : Nat) (now : Int) (ts : List Int) :
    Bool × List Int :=
  let pruned := pruneWindow window now ts
  (pruned.length < maxReq, pruned)

/-- waitForRateLimit(): if admission succeeds, push Date.now() and return;
otherwise sleep exactly REQUEST_WINDOW - (now - oldestRequest) and retry
recursively.  adv now w is the value of Date.now() when the sleep of w ms
scheduled at time now wakes (setTimeout guarantees adv now w is at least
now + w, and each event-loop turn moves the clock strictly forward).  fuel
bounds the recursion depth so the function is total; the termination theorem
shows 2 * length + 2 fuel always suffices.  Returns the admission time and
the updated timestamp array, or none if fuel runs out. -/
def waitForRateLimit (window : Int) (maxReq : Nat) (adv : Int → Int → Int) :
    Nat → Int → List Int → Option (Int × List Int)
  | 0, _, _ => none
  | fuel + 1, now, ts =>
    let pruned := pruneWindow window now ts
    if pruned.length < maxReq then some (now, pruned ++ [now])
    else
      match pruned with
      | [] => none
      | oldest :: _ =>
        waitForRateLimit window maxReq adv fuel
          (adv now (window - (now - oldest))) pruned

/-- Outcome of one invocation of the operation passed to fetchWithRetry:
either a value, or a thrown error whose message classification
(message includes 429 or Too Many Requests) is is429. -/
inductive FetchOutcome (α : Type)
  | success (v : α)
  | failure (is429 : Bool)
deriving DecidableEq, Repr

/-- Errors surfaced by fetchWithRetry: the underlying error of attempt k
rethrown as-is (carrying its rate-limit classification), or the
Maximum retries exceeded error from the loop exit. -/
inductive RetryErr
  | raised (is429 : Bool) (k : Nat)
  | maxRetriesExceeded
deriving DecidableEq, Repr

/-- The loop body of fetchWithRetry.  i is the loop counter, k the global
attempt index (indexing the oracle of operation outcomes), ts the shared
requestTimestamps array; times k is the admission time of attempt k (the
time waitForRateLimit admits it; its result array is prune (times k) ts ++
[times k], see waitForRateLimit_admit_shape).  On a non-final non-429
failure the delay is min(delay * 2^i, maxDelay) and i increments; on a 429
the delay is the fixed maxDelay, the timestamp array is cleared, and
i = max(0, i-1) before the i++ of the for loop.  A non-429 failure on the
last iteration (i = retries-1) is rethrown unchanged.  fuel bounds the
number of iterations (the 429 path can decrement i forever); the result is
none when fuel runs out with the loop still running.  Returns the result,
the number of attempts made, the list of backoff delays awaited, and the
final timestamp array. -/
def fetchLoop {α : Type} (oracle : Nat → FetchOutcome α) (times : Nat → Int)
    (window : Int) (retries : Nat) (baseDelay maxDelay : Int) :
    Nat → Nat → Nat → List Int →
    Option (Except RetryErr α) × Nat × List Int × List Int
  | 0, _, _, ts => (none, 0, [], ts)
  | fuel + 1, i, k, ts =>
    if i < retries then
      let ts1 := pruneWindow window (times k) ts ++ [times k]
      match oracle k with
      | .success v => (some (.ok v), 1, [], ts1)
      | .failure is429 =>
        if i = retries - 1 ∧ is429 = false then
          (some (.error (.raised is429 k)), 1, [], ts1)
        else
          let d := if is429 then maxDelay else min (baseDelay * 2 ^ i) maxDelay
          let ts2 := if is429 then [] else ts1
          let i2 := if is429 then max 0 (i - 1) + 1 else i + 1
          let rest := fetchLoop oracle times window retries baseDelay maxDelay fuel i2 (k + 1) ts2
          (rest.1, rest.2.1 + 1, d :: rest.2.2.1, rest.2.2.2)
    else (some (.error .maxRetriesExceeded), 0, [], ts)

/-- fetchWithRetry(operation, retries, delay): run the loop from i = 0 with
the module-level timestamp array ts. -/
def fetchWithRetry {α : Type} (oracle : Nat → FetchOutcome α) (times : Nat → Int)
    (window : Int) (retries : Nat) (baseDelay maxDelay : Int) (fuel : Nat)
    (ts : List Int) : Option (Except RetryErr α) × Nat × List Int × List Int :=
  fetchLoop oracle times window retries baseDelay maxDelay fuel 0 0 ts

/-! ## TTL cache and CORS fetch helper (part_010)

Constants from the source: CACHE_DURATION 2 min, RATE_LIMIT_RESET 1 min,
MAX_REQUESTS_PER_MINUTE 30, INITIAL_BACKOFF 1 s, MAX_BACKOFF 32 s,
MAX_RETRIES 3, and three CORS proxies. -/

def RATE_LIMIT_RESET : Int := 60 * 1000
def MAX_REQUESTS_PER_MINUTE : Nat := 30
def INITIAL_BACKOFF : Int := 1000
def MAX_BACKOFF : Int := 32000
def CORS_MAX_RETRIES : Nat := 3
def CACHE_DURATION : Int := 2 * 60 * 1000

/-- The module-level rate-limit counters of part_010. -/
structure RateState where
  requestCount : Nat
  lastResetTime : Int
deriving DecidableEq, Repr

/-- checkRateLimit(): reset the counter when a full window has passed, then
throw CryptoError RATE_LIMIT (modelled as none) if the counter has reached
the maximum, otherwise increment it. -/
def checkRateLimit (now : Int) (st : RateState) : Option RateState :=
  let st1 := if now - st.lastResetTime ≥ RATE_LIMIT_RESET then ⟨0, now⟩ else st
  if st1.requestCount ≥ MAX_REQUESTS_PER_MINUTE then none
  else some { st1 with requestCount := st1.requestCount + 1 }

/-- The apiCache object: entries keyed by string, each holding the parsed
data and its store time.  Overwriting assignment is modelled by consing; the
lookup takes the most recent entry for a key. -/
def getCachedData {α : Type} (cache : List (String × α × Int)) (key : String)
    (maxAge now : Int) : Option α :=
  match cache.lookup key with
  | some (v, ts) => if now - ts < maxAge then some v else none
  | none => none

/-- setCachedData: store the value with timestamp Date.now(). -/
def setCachedData {α : Type} (cache : List (String × α × Int)) (key : String)
    (v : α) (now : Int) : List (String × α × Int) :=
  (key, v, now) :: cache

/-- Outcome of one fetch(proxyUrl) call inside fetchWithCORS: a parsed JSON
body on response.ok, an HTTP 429, another non-ok status, or a thrown
(network) error. -/
inductive ProxyOutcome (α : Type)
  | ok (data : α)
  | status429
  | httpError (code : Nat)
  | exn
deriving DecidableEq, Repr

/-- What lastError holds: an HTTP status line or a caught exception. -/
inductive CorsErrCause
  | http (code : Nat)
  | thrown
deriving DecidableEq, Repr

/-- The CryptoError(All fetch attempts failed, FETCH_ERROR) thrown when
every retry is exhausted, carrying the last underlying cause if any. -/
inductive CorsErr
  | fetchError (last : Option CorsErrCause)
deriving DecidableEq, Repr

/-- The mutable module state threaded through fetchWithCORS: the apiCache,
the rate-limit counters, the current backoffTime, plus instrumentation
(the number of fetch(proxyUrl) calls made) and the running lastError. -/
structure CorsState (α : Type) where
  cache : List (String × α × Int)
  rl : RateState
  backoff : Int
  fetchCalls : Nat
  lastError : Option CorsErrCause
deriving Repr

/-- The inner for-of loop over CORS_PROXIES: try each proxy in order; on a
429 wait backoffTime, double it (capped) and move to the next proxy; on
another failure record lastError and move on; on success parse the body,
cache it under cacheKey (storeT p is Date.now() at that point) and return. -/
def tryProxies {α : Type} (outcome : Nat → ProxyOutcome α) (storeT : Nat → Int)
    (cacheKey : Option String) : List Nat → CorsState α → Option α × CorsState α
  | [], st => (none, st)
  | p :: rest, st =>
    let st1 := { st with fetchCalls := st.fetchCalls + 1 }
    match outcome p with
    | .ok data =>
      let st2 :=
        match cacheKey with
        | some k => { st1 with cache := setCachedData st1.cache k data (storeT p) }
        | none => st1
      (some data, st2)
    | .status429 =>
      tryProxies outcome storeT cacheKey rest
        { st1 with backoff := min (st1.backoff * 2) MAX_BACKOFF }
    | .httpError c =>
      tryProxies outcome storeT cacheKey rest
        { st1 with lastError := some (.http c) }
    | .exn =>
      tryProxies outcome storeT cacheKey rest
        { st1 with lastError := some .thrown }

/-- The outer retry loop of fetchWithCORS, for (retry = 0; retry <=
MAX_RETRIES; retry++).  rem is the number of iterations left (loop entry:
CORS_MAX_RETRIES + 1).  Each iteration runs checkRateLimit at time
rlTimes retry: a RATE_LIMIT throw waits backoffTime, doubles it (capped) and
continues; otherwise the proxies are tried; if none succeeded and retry <
MAX_RETRIES the loop waits backoffTime and doubles it before the next
iteration.  Falling out of the loop throws CryptoError FETCH_ERROR with the
last error. -/
def corsRetryLoop {α : Type} (outcome : Nat → Nat → ProxyOutcome α)
    (rlTimes : Nat → Int) (storeT : Nat → Nat → Int) (cacheKey : Option String) :
    Nat → Nat → CorsState α → Except CorsErr α × CorsState α
  | 0, _, st => (.error (.fetchError st.lastError), st)
  | rem + 1, retry, st =>
    match checkRateLimit (rlTimes retry) st.rl with
    | none =>
      corsRetryLoop outcome rlTimes storeT cacheKey rem (retry + 1)
        { st with backoff := min (st.backoff * 2) MAX_BACKOFF }
    | some rl1 =>
      let st1 := { st with rl := rl1 }
      match tryProxies (outcome retry) (storeT retry) cacheKey [0, 1, 2] st1 with
      | (some data, st2) => (.ok data, st2)
      | (none, st2) =>
        if retry < CORS_MAX_RETRIES then
          corsRetryLoop outcome rlTimes storeT cacheKey rem (retry + 1)
            { st2 with backoff := min (st2.backoff * 2) MAX_BACKOFF }
        else corsRetryLoop outcome rlTimes storeT cacheKey rem (retry + 1) st2

/-- fetchWithCORS(url, options, cacheKey, cacheDuration): check the cache
first — a live entry is returned immediately, with no fetch call and no
rate-limit accounting — otherwise run the retry loop.  now0 is Date.now()
at the cache check. -/
def fetchWithCORS {α : Type} (outcome : Nat → Nat → ProxyOutcome α)
    (rlTimes : Nat → Int) (storeT : Nat → Nat → Int) (cacheKey : Option String)
    (cacheDuration : Int) (now0 : Int) (st : CorsState α) :
    Except CorsErr α × CorsState α :=
  match cacheKey with
  | some k =>
    match getCachedData st.cache k cacheDuration now0 with
    | some v => (.ok v, st)
    | none => corsRetryLoop outcome rlTimes storeT cacheKey (CORS_MAX_RETRIES + 1) 0 st
  | none => corsRetryLoop outcome rlTimes storeT cacheKey (CORS_MAX_RETRIES + 1) 0 st

/-! ## Concrete states used to exercise the adapter, and the purged-state
predicate -/

/-- A 64-byte secret key (Keypair.generate always yields 64 bytes). -/
def demoSecret : List Nat := List.replicate 64 7

def demoKeypair : Keypair := ⟨demoSecret⟩

/-- A well-formed persisted record created at time 0. -/
def demoRecord : WalletRecord :=
  { publicKey := base58 demoKeypair.publicKeyBytes
    secretKey := demoSecret
    createdAt := 0 }

/-- The adapter fields before the constructor body runs, over the given
localStorage contents. -/
def initialState (storage : Option StoredData) : AdapterState :=
  ⟨none, false, false, none, storage⟩

/-- The adapter right after construction at time 0 over demoRecord. -/
def demoLoaded : AdapterState :=
  loadBurnerWallet (initialState (some (.record demoRecord))) 0

/-- demoLoaded after a successful connect(). -/
def demoConnected : AdapterState := (connect demoLoaded).2

def demoTx : Tx := ⟨0, []⟩

/-- The state clearWallet leaves behind (given _connecting idle): no
keypair, not connected, nothing persisted. -/
def Cleared (s : AdapterState) : Prop :=
  s.keypair = none ∧ s.connecting = false ∧ s.connected = false ∧ s.storage = none

instance (s : AdapterState) : Decidable (Cleared s) := by
  unfold Cleared; infer_instance

/-! # Theorems -/

/-! ## C10: getTimeRemaining -/

/-- C10: getTimeRemaining() is a pure read returning max(0, expiresAt - now)
with expiresAt = createdAt + 24h, returns 0 with no wallet record, is
monotonically non-increasing in now for a fixed record, and is exactly 0 at
or after createdAt + 24h. -/
theorem getTimeRemaining_spec (r : WalletRecord) (now now2 : Int) :
    getTimeRemaining none now = .ok 0 ∧
    getTimeRemaining (some (.record r)) now =
      .ok (max 0 (r.createdAt + EXPIRY_TIME - now)) ∧
    (now ≤ now2 → ∀ a b : Int,
      getTimeRemaining (some (.record r)) now = .ok a →
      getTimeRemaining (some (.record r)) now2 = .ok b → b ≤ a) ∧
    (r.createdAt + EXPIRY_TIME ≤ now → getTimeRemaining (some (.record r)) now = .ok 0)
    := by
  refine ⟨rfl, ?_, ?_, ?_⟩
  · have harg : EXPIRY_TIME - (now - r.createdAt) = r.createdAt + EXPIRY_TIME - now := by
      ring
    simp [getTimeRemaining, harg]
  · intro hle a b ha hb
    unfold getTimeRemaining at ha hb
    have ha2 : max 0 (EXPIRY_TIME - (now - r.createdAt)) = a := by
      simpa using ha
    have hb2 : max 0 (EXPIRY_TIME - (now2 - r.createdAt)) = b := by
      simpa using hb
    omega
  · intro hexp
    have h0 : max 0 (EXPIRY_TIME - (now - r.createdAt)) = 0 := by omega
    simp [getTimeRemaining, h0]

/-- Witness for getTimeRemaining_spec at a concrete record and times. -/
theorem getTimeRemaining_spec_witness :
    getTimeRemaining (some (.record demoRecord)) (EXPIRY_TIME + 1) = .ok 0 :=
  (getTimeRemaining_spec demoRecord (EXPIRY_TIME + 1) (EXPIRY_TIME + 1)).2.2.2
    (by unfold demoRecord; simp)

/-! ## C7: recovery from corrupt persisted state -/

/-- C7 counterexample: the claim says no parse error propagates to the
caller of any public operation, but getTimeRemaining() runs JSON.parse with
no try/catch: on a corrupt record it propagates the parse error instead of
treating the state as absent (and it does not purge the bad record). -/
theorem getTimeRemaining_corrupt_propagates :
    getTimeRemaining (some .corrupt) 0 = .error () := rfl

/-- C7 amended: loadBurnerWallet recovers locally from a corrupt record —
it purges storage and proceeds with no wallet, surfacing no error — but
getTimeRemaining propagates the parse error to its caller. -/
theorem corrupt_record_recovery (s : AdapterState) (now : Int)
    (h : s.storage = some .corrupt) :
    loadBurnerWallet s now = clearWallet s ∧
    (loadBurnerWallet s now).storage = none ∧
    (loadBurnerWallet s now).keypair = none ∧
    (loadBurnerWallet s now).connected = false ∧
    getTimeRemaining s.storage now = .error () := by
  refine ⟨?_, ?_, ?_, ?_, ?_⟩ <;> simp [loadBurnerWallet, clearWallet, getTimeRemaining, h]

/-- Witness for corrupt_record_recovery on a concrete corrupt state. -/
theorem corrupt_record_recovery_witness :
    loadBurnerWallet (initialState (some .corrupt)) 5 = clearWallet (initialState (some .corrupt)) ∧
    getTimeRemaining (initialState (some .corrupt)).storage 5 = .error () := by
  have h := corrupt_record_recovery (initialState (some .corrupt)) 5 rfl
  exact ⟨h.1, h.2.2.2.2⟩

/-! ## C6: createWallet persistence -/

/-- C6 counterexample: the claim says the persisted state is exactly one
JSON record with fields publicKey, secretKey and createdAt, but the record
createBurnerWallet writes (BurnerWallet.tsx) also carries username and
email. -/
theorem createBurnerWallet_extra_fields :
    (createBurnerWalletJson demoKeypair "alice" "alice@example.com" 0).map Prod.fst ≠
      ["publicKey", "secretKey", "createdAt"] := by
  decide

/-- C6 amended: createBurnerWallet takes the freshly generated keypair,
sets createdAt = now, and persists — synchronously, before returning — one
JSON record under the single storage key burnerWallet whose ordered fields
are publicKey (base-58 string), secretKey (array of byte values), username,
email, and createdAt (ISO-8601 string).  No expiry timer is armed by this
function (the adapter arms it when it loads the record), and the raw key
material is not returned by it (callers keep the generated keypair). -/
theorem createBurnerWallet_spec (kp : Keypair) (u e : String) (now : Int) :
    createBurnerWallet kp u e now =
      some (.record
        { publicKey := base58 kp.publicKeyBytes
          secretKey := kp.secretKey
          username := some u
          email := some e
          createdAt := now }) ∧
    (createBurnerWalletJson kp u e now).map Prod.fst =
      ["publicKey", "secretKey", "username", "email", "createdAt"] ∧
    (createBurnerWalletJson kp u e now).lookup "publicKey" = some (.b58 kp.publicKeyBytes) ∧
    (createBurnerWalletJson kp u e now).lookup "secretKey" = some (.bytesArr kp.secretKey) ∧
    (createBurnerWalletJson kp u e now).lookup "createdAt" = some (.iso now) := by
  exact ⟨rfl, rfl, rfl, rfl, rfl⟩

/-! ## Adapter reachability invariants -/

/-- loadBurnerWallet leaves the state alone, clears it, or installs a
keypair and an armed timer. -/
theorem loadBurnerWallet_cases (s : AdapterState) (t : Int) :
    loadBurnerWallet s t = s ∨ loadBurnerWallet s t = clearWallet s ∨
    ∃ kp d, loadBurnerWallet s t = { s with keypair := some kp, timer := some d } := by
  unfold loadBurnerWallet
  split
  · exact Or.inl rfl
  · exact Or.inr (Or.inl rfl)
  · split
    · exact Or.inr (Or.inl rfl)
    · split
      · exact Or.inr (Or.inl rfl)
      · unfold setupDisconnectTimer
        split
        · exact Or.inr (Or.inl rfl)
        · exact Or.inr (Or.inr ⟨_, _, rfl⟩)

/-- Every reachable adapter state is idle (_connecting reset by the finally
block) and holds a keypair whenever it is connected. -/
theorem reach_invariant {s : AdapterState} {t : Int} (h : Reach s t) :
    s.connecting = false ∧ (s.connected = true → s.keypair.isSome) := by
  induction h with
  | init storage t => exact ⟨rfl, by simp⟩
  | load t2 hr hle ih =>
    rcases loadBurnerWallet_cases _ t2 with hc | hc | ⟨kp, d, hc⟩ <;> rw [hc]
    · exact ih
    · exact ⟨ih.1, by simp [clearWallet]⟩
    · exact ⟨ih.1, by simp⟩
  | conn t2 hr hle ih =>
    unfold connect
    split
    · exact ih
    · split
      · exact ih
      · exact ⟨ih.1, fun _ => by simp_all⟩
  | disc t2 hr hle ih => exact ⟨ih.1, by simp [disconnect, clearWallet]⟩
  | fire t2 hr htimer hle hd ih => exact ⟨ih.1, by simp [clearWallet]⟩
  | store o t2 hr hle ih => exact ⟨ih.1, ih.2⟩
  | wait t2 hr hle ih => exact ih

/-! ## C9: signTransaction / signAllTransactions -/

/-- C9: in every reachable state, signTransaction fails with
WalletNotConnectedError exactly when the adapter is not connected, and
otherwise appends the keypair signature leaving the transaction otherwise
unchanged; signAllTransactions applies signTransaction to each element
(Promise.all over the map), and when the adapter is disconnected a
non-empty batch rejects with that same error and no partial result. -/
theorem signTransaction_spec {s : AdapterState} {t : Int} (h : Reach s t)
    (tx : Tx) (txs : List Tx) :
    (s.connected = false → signTransaction s tx = .error .notConnectedError ∧
      (txs ≠ [] → signAllTransactions s txs = .error .notConnectedError)) ∧
    (s.connected = true → ∃ kp, s.keypair = some kp ∧
      signTransaction s tx =
        .ok { tx with signatures := tx.signatures ++ [kp.publicKeyBytes] } ∧
      ∃ outs, signAllTransactions s txs = .ok outs) ∧
    (∀ tx2, signTransaction s tx = .ok tx2 →
      tx2.payload = tx.payload ∧ ∃ sig, tx2.signatures = tx.signatures ++ [sig]) ∧
    signAllTransactions s txs = txs.mapM (signTransaction s) := by
  have hinv := reach_invariant h
  refine ⟨?_, ?_, ?_, rfl⟩
  · intro hnc
    have hsig : ∀ tx3, signTransaction s tx3 = .error .notConnectedError := by
      intro tx3
      unfold signTransaction
      rcases s.keypair with _ | kp <;> simp [hnc]
    refine ⟨hsig tx, ?_⟩
    intro hne
    cases txs with
    | nil => exact absurd rfl hne
    | cons tx0 rest =>
      simp only [signAllTransactions, List.mapM_cons, hsig tx0]
      rfl
  · intro hc
    rcases Option.isSome_iff_exists.mp (hinv.2 hc) with ⟨kp, hkp⟩
    refine ⟨kp, hkp, ?_, ?_⟩
    · unfold signTransaction
      simp [hkp, hc]
    · have hsig : ∀ tx3, signTransaction s tx3 =
          .ok { tx3 with signatures := tx3.signatures ++ [kp.publicKeyBytes] } := by
        intro tx3
        unfold signTransaction
        simp [hkp, hc]
      clear h hinv
      induction txs with
      | nil => exact ⟨[], rfl⟩
      | cons tx0 rest ih =>
        rcases ih with ⟨outs, houts⟩
        refine ⟨{ tx0 with signatures := tx0.signatures ++ [kp.publicKeyBytes] } :: outs, ?_⟩
        unfold signAllTransactions at houts ⊢
        rw [List.mapM_cons, hsig tx0, houts]
        rfl
  · intro tx2 hok
    unfold signTransaction at hok
    rcases hkp : s.keypair with _ | kp
    · rw [hkp] at hok
      exact Except.noConfusion hok
    · rcases hc : s.connected with _ | _
      · rw [hkp, hc] at hok
        exact Except.noConfusion hok
      · rw [hkp, hc] at hok
        injection hok with h2
        subst h2
        exact ⟨rfl, kp.publicKeyBytes, rfl⟩

/-- The constructed-and-loaded demo adapter is reachable at any later
time (in particular after the 24 h expiry, when the armed timer has not yet
been delivered: setTimeout only promises not to fire early, and background
tabs can delay it arbitrarily — the source works around exactly this with
its visibilitychange reload). -/
theorem reach_demoLoaded (t : Int) (h : (0:Int) ≤ t) : Reach demoLoaded t :=
  Reach.wait t (Reach.load 0 (Reach.init (some (.record demoRecord)) 0) le_rfl) h

theorem reach_demoConnected (t : Int) (h : (0:Int) ≤ t) : Reach demoConnected t :=
  Reach.wait t
    (Reach.conn 0 (Reach.load 0 (Reach.init (some (.record demoRecord)) 0) le_rfl) le_rfl) h

/-- Witness for signTransaction_spec on the connected demo adapter. -/
theorem signTransaction_spec_witness :
    ∃ kp, demoConnected.keypair = some kp ∧
      signTransaction demoConnected demoTx =
        .ok { demoTx with signatures := demoTx.signatures ++ [kp.publicKeyBytes] } ∧
      ∃ outs, signAllTransactions demoConnected [demoTx] = .ok outs :=
  (signTransaction_spec (reach_demoConnected 0 le_rfl) demoTx [demoTx]).2.1 rfl

/-! ## C2: connect -/

/-- C2 counterexample: connect() performs no expiry check at all.  In the
reachable state demoLoaded, observed at EXPIRY_TIME + 1 — past expiresAt =
createdAt + 24 h, the armed timer not yet delivered — connect() succeeds and
transitions to connected, instead of failing with a connection error and
purging the record; the record is still in storage afterwards.  So connect
success is not equivalent to a non-expired wallet being loaded. -/
theorem connect_succeeds_on_expired_wallet :
    Reach demoLoaded (EXPIRY_TIME + 1) ∧
    EXPIRY_TIME + 1 - demoRecord.createdAt > EXPIRY_TIME ∧
    (connect demoLoaded).1 = .ok () ∧
    (connect demoLoaded).2.connected = true ∧
    (connect demoLoaded).2.storage = some (.record demoRecord) := by
  refine ⟨reach_demoLoaded _ (by unfold EXPIRY_TIME; norm_num), by decide, rfl, rfl, rfl⟩

/-- C2 amended: connect() succeeds iff it is already connecting or
connected (in which case it is a no-op) or an in-memory keypair is present —
regardless of that keypair's expiry, which only loadBurnerWallet and the
timer enforce; with no keypair it fails with
WalletConnectionError(No burner wallet found) and changes nothing; from an
idle state with a keypair it transitions to connected. -/
theorem connect_spec (s : AdapterState) :
    ((connect s).1 = .ok () ↔
      (s.connecting = true ∨ s.connected = true ∨ s.keypair.isSome)) ∧
    (s.connecting = false → s.connected = false → s.keypair = none →
      (connect s).1 = .error (.connectionError "No burner wallet found") ∧
      (connect s).2 = s) ∧
    (s.connected = true → connect s = (.ok (), s)) ∧
    (s.connecting = false → s.connected = false → s.keypair.isSome →
      (connect s).1 = .ok () ∧ (connect s).2 = { s with connected := true }) := by
  refine ⟨?_, ?_, ?_, ?_⟩
  · unfold connect
    rcases hcg : s.connecting with _ | _ <;> rcases hcd : s.connected with _ | _ <;>
      rcases hkp : s.keypair with _ | kp <;> simp
  · intro h1 h2 h3
    unfold connect
    simp [h1, h2, h3]
  · intro h2
    unfold connect
    simp [h2]
  · intro h1 h2 h3
    rcases Option.isSome_iff_exists.mp h3 with ⟨kp, hkp⟩
    unfold connect
    simp [h1, h2, hkp]

/-- Witness for connect_spec: on the freshly loaded demo adapter, connect
succeeds and marks the state connected. -/
theorem connect_spec_witness :
    (connect demoLoaded).1 = .ok () ∧
    (connect demoLoaded).2 = { demoLoaded with connected := true } :=
  (connect_spec demoLoaded).2.2.2 rfl rfl (by decide)

/-! ## C1: expiry invariant -/

/-- C1 counterexample: in the reachable state demoConnected observed at
EXPIRY_TIME + 1 (now past expiresAt, the timer event not yet delivered),
the wallet still signs, connect() still succeeds, and the persisted record
still exists — against the claim that once now >= expiresAt signing is
impossible, connect fails, and the record is gone. -/
theorem expired_wallet_still_usable :
    Reach demoConnected (EXPIRY_TIME + 1) ∧
    EXPIRY_TIME + 1 - demoRecord.createdAt ≥ EXPIRY_TIME ∧
    (signTransaction demoConnected demoTx =
      .ok { demoTx with signatures := demoTx.signatures ++ [demoKeypair.publicKeyBytes] }) ∧
    (connect demoConnected).1 = .ok () ∧
    demoConnected.storage = some (.record demoRecord) := by
  refine ⟨reach_demoConnected _ (by unfold EXPIRY_TIME; norm_num), by decide, rfl, rfl, rfl⟩

/-- C1 amended: the expiry invariant holds once the expiry is actually
enforced, which the code does only in the timer callback and in
loadBurnerWallet (connect and signTransaction perform no expiry check).
Firing the due timer, or reloading at a time past createdAt + 24 h, yields a
purged state; in a purged state signing fails with WalletNotConnectedError,
connect fails with WalletConnectionError, the persisted record is gone, and
every adapter operation (load, connect, disconnect, timer) preserves the
purged state. -/
theorem expiry_enforced_after_clear (s : AdapterState) (now : Int) (r : WalletRecord) :
    (s.connecting = false → Cleared (clearWallet s)) ∧
    (s.storage = some (.record r) → now - r.createdAt > EXPIRY_TIME →
      loadBurnerWallet s now = clearWallet s) ∧
    (Cleared s →
      (∀ tx, signTransaction s tx = .error .notConnectedError) ∧
      (connect s).1 = .error (.connectionError "No burner wallet found") ∧
      s.storage = none) ∧
    (Cleared s → Cleared (loadBurnerWallet s now) ∧ Cleared (connect s).2 ∧
      Cleared (disconnect s).2 ∧ Cleared (clearWallet s)) := by
  refine ⟨?_, ?_, ?_, ?_⟩
  · intro h1
    exact ⟨rfl, h1, rfl, rfl⟩
  · intro hst hexp
    unfold loadBurnerWallet
    simp [hst, hexp]
  · rintro ⟨hk, hg, hc, hs⟩
    refine ⟨?_, ?_, hs⟩
    · intro tx
      unfold signTransaction
      simp [hk]
    · unfold connect
      simp [hk, hg, hc]
  · rintro ⟨hk, hg, hc, hs⟩
    refine ⟨?_, ?_, ?_, ?_⟩
    · unfold loadBurnerWallet
      simp [hs]
      exact ⟨hk, hg, hc, hs⟩
    · unfold connect
      simp [hk, hg, hc]
      exact ⟨hk, hg, hc, hs⟩
    · exact ⟨rfl, hg, rfl, rfl⟩
    · exact ⟨rfl, hg, rfl, rfl⟩

/-- Witness for expiry_enforced_after_clear: firing the timer on the
expired connected demo state yields a purged state in which signing and
connecting fail and storage is empty. -/
theorem expiry_enforced_after_clear_witness :
    Cleared (clearWallet demoConnected) ∧
    (∀ tx, signTransaction (clearWallet demoConnected) tx = .error .notConnectedError) ∧
    (connect (clearWallet demoConnected)).1 =
      .error (.connectionError "No burner wallet found") ∧
    (clearWallet demoConnected).storage = none := by
  have h1 : Cleared (clearWallet demoConnected) :=
    (expiry_enforced_after_clear demoConnected 0 demoRecord).1 rfl
  have h2 := (expiry_enforced_after_clear (clearWallet demoConnected) 0 demoRecord).2.2.1 h1
  exact ⟨h1, h2.1, h2.2.1, h2.2.2⟩

/-! ## fetchWithRetry step lemmas -/

/-- One iteration on a success: admit a timestamp, run the operation,
return its value. -/
theorem fetchLoop_step_success {α : Type} (oracle : Nat → FetchOutcome α)
    (times : Nat → Int) (window : Int) (retries : Nat) (baseDelay maxDelay : Int)
    (fuel i k : Nat) (ts : List Int) (v : α)
    (hi : i < retries) (ho : oracle k = .success v) :
    fetchLoop oracle times window retries baseDelay maxDelay (fuel + 1) i k ts =
      (some (.ok v), 1, [], pruneWindow window (times k) ts ++ [times k]) := by
  unfold fetchLoop
  rw [if_pos hi, ho]

/-- One iteration on a non-final non-rate-limit failure: delay
min(baseDelay * 2^i, maxDelay), increment the loop counter, keep the
admitted timestamps. -/
theorem fetchLoop_step_other {α : Type} (oracle : Nat → FetchOutcome α)
    (times : Nat → Int) (window : Int) (retries : Nat) (baseDelay maxDelay : Int)
    (fuel i k : Nat) (ts : List Int)
    (hi : i < retries) (hne : i ≠ retries - 1) (ho : oracle k = .failure false) :
    fetchLoop oracle times window retries baseDelay maxDelay (fuel + 1) i k ts =
      ((fetchLoop oracle times window retries baseDelay maxDelay fuel (i + 1) (k + 1)
          (pruneWindow window (times k) ts ++ [times k])).1,
       (fetchLoop oracle times window retries baseDelay maxDelay fuel (i + 1) (k + 1)
          (pruneWindow window (times k) ts ++ [times k])).2.1 + 1,
       min (baseDelay * 2 ^ i) maxDelay ::
         (fetchLoop oracle times window retries baseDelay maxDelay fuel (i + 1) (k + 1)
            (pruneWindow window (times k) ts ++ [times k])).2.2.1,
       (fetchLoop oracle times window retries baseDelay maxDelay fuel (i + 1) (k + 1)
          (pruneWindow window (times k) ts ++ [times k])).2.2.2) := by
  simp only [fetchLoop]
  rw [if_pos hi, ho]
  have hcond : ¬(i = retries - 1 ∧ (false : Bool) = false) := fun hh => hne hh.1
  dsimp only
  rw [if_neg hcond]
  simp

/-- One iteration on a rate-limit failure: fixed delay maxDelay, the
timestamp window cleared before the next attempt, and the loop counter
stepped to max(0, i-1) + 1. -/
theorem fetchLoop_step_429 {α : Type} (oracle : Nat → FetchOutcome α)
    (times : Nat → Int) (window : Int) (retries : Nat) (baseDelay maxDelay : Int)
    (fuel i k : Nat) (ts : List Int)
    (hi : i < retries) (ho : oracle k = .failure true) :
    fetchLoop oracle times window retries baseDelay maxDelay (fuel + 1) i k ts =
      ((fetchLoop oracle times window retries baseDelay maxDelay fuel
          (max 0 (i - 1) + 1) (k + 1) []).1,
       (fetchLoop oracle times window retries baseDelay maxDelay fuel
          (max 0 (i - 1) + 1) (k + 1) []).2.1 + 1,
       maxDelay ::
         (fetchLoop oracle times window retries baseDelay maxDelay fuel
            (max 0 (i - 1) + 1) (k + 1) []).2.2.1,
       (fetchLoop oracle times window retries baseDelay maxDelay fuel
          (max 0 (i - 1) + 1) (k + 1) []).2.2.2) := by
  simp only [fetchLoop]
  rw [if_pos hi, ho]
  have hcond : ¬(i = retries - 1 ∧ (true : Bool) = false) := fun hh =>
    Bool.noConfusion hh.2
  dsimp only
  rw [if_neg hcond]
  simp

/-- Every backoff delay the retry loop awaits is capped by maxDelay: 429
delays are exactly maxDelay and the exponential branch is clamped by min. -/
theorem fetchLoop_delays_le {α : Type} (oracle : Nat → FetchOutcome α)
    (times : Nat → Int) (window : Int) (retries : Nat) (baseDelay maxDelay : Int) :
    ∀ fuel i k ts d,
      d ∈ (fetchLoop oracle times window retries baseDelay maxDelay fuel i k ts).2.2.1 →
      d ≤ maxDelay := by
  intro fuel
  induction fuel with
  | zero =>
    intro i k ts d hd
    simp [fetchLoop] at hd
  | succ n ih =>
    intro i k ts d hd
    by_cases hi : i < retries
    · rcases ho : oracle k with v | is429
      · rw [fetchLoop_step_success oracle times window retries baseDelay maxDelay
          n i k ts v hi ho] at hd
        simp at hd
      · rcases is429 with _ | _
        · by_cases hne : i = retries - 1
          · simp only [fetchLoop] at hd
            rw [if_pos hi, ho] at hd
            dsimp only at hd
            rw [if_pos ⟨hne, rfl⟩] at hd
            simp at hd
          · rw [fetchLoop_step_other oracle times window retries baseDelay maxDelay
              n i k ts hi hne ho] at hd
            rcases List.mem_cons.mp hd with h1 | h1
            · rw [h1]; exact min_le_right _ _
            · exact ih _ _ _ d h1
        · rw [fetchLoop_step_429 oracle times window retries baseDelay maxDelay
            n i k ts hi ho] at hd
          rcases List.mem_cons.mp hd with h1 | h1
          · rw [h1]
          · exact ih _ _ _ d h1
    · simp only [fetchLoop] at hd
      rw [if_neg hi] at hd
      simp at hd

/-! ## C8: backoff schedule -/

/-- C8: each retry attempt i that fails with a non-rate-limit error (and is
not the final attempt) is followed by a delay of exactly
min(baseDelay * 2^i, maxDelay); a rate-limit failure is followed by the
fixed long backoff maxDelay with the request-window timestamps cleared
before the next attempt; no awaited delay ever exceeds maxDelay; and an
operation failing twice with non-429 errors then succeeding observes the
delays baseDelay then min(baseDelay * 2, maxDelay) and succeeds overall
when maxRetries is at least 3. -/
theorem backoff_spec {α : Type} (oracle : Nat → FetchOutcome α) (times : Nat → Int)
    (window : Int) (retries : Nat) (baseDelay maxDelay : Int)
    (fuel i k : Nat) (ts : List Int) (v : α) :
    (∀ d ∈ (fetchLoop oracle times window retries baseDelay maxDelay fuel i k ts).2.2.1,
      d ≤ maxDelay) ∧
    (i < retries → i ≠ retries - 1 → oracle k = .failure false →
      (fetchLoop oracle times window retries baseDelay maxDelay (fuel + 1) i k ts).2.2.1 =
        min (baseDelay * 2 ^ i) maxDelay ::
          (fetchLoop oracle times window retries baseDelay maxDelay fuel (i + 1) (k + 1)
            (pruneWindow window (times k) ts ++ [times k])).2.2.1) ∧
    (i < retries → oracle k = .failure true →
      (fetchLoop oracle times window retries baseDelay maxDelay (fuel + 1) i k ts).2.2.1 =
        maxDelay ::
          (fetchLoop oracle times window retries baseDelay maxDelay fuel
            (max 0 (i - 1) + 1) (k + 1) []).2.2.1 ∧
      (fetchLoop oracle times window retries baseDelay maxDelay (fuel + 1) i k ts).2.2.2 =
        (fetchLoop oracle times window retries baseDelay maxDelay fuel
          (max 0 (i - 1) + 1) (k + 1) []).2.2.2) ∧
    (3 ≤ retries → 0 ≤ baseDelay → baseDelay ≤ maxDelay →
      oracle 0 = .failure false → oracle 1 = .failure false → oracle 2 = .success v →
      (fetchWithRetry oracle times window retries baseDelay maxDelay 3 ts).1 =
        some (.ok v) ∧
      (fetchWithRetry oracle times window retries baseDelay maxDelay 3 ts).2.1 = 3 ∧
      (fetchWithRetry oracle times window retries baseDelay maxDelay 3 ts).2.2.1 =
        [baseDelay, min (baseDelay * 2) maxDelay]) := by
  refine ⟨fetchLoop_delays_le oracle times window retries baseDelay maxDelay fuel i k ts,
    ?_, ?_, ?_⟩
  · intro hi hne ho
    rw [fetchLoop_step_other oracle times window retries baseDelay maxDelay
      fuel i k ts hi hne ho]
  · intro hi ho
    rw [fetchLoop_step_429 oracle times window retries baseDelay maxDelay
      fuel i k ts hi ho]
    exact ⟨rfl, rfl⟩
  · intro hr hb0 hbm h0 h1 h2
    have e3 : (3 : Nat) = 2 + 1 := rfl
    have e2 : (2 : Nat) = 1 + 1 := rfl
    have e1 : (1 : Nat) = 0 + 1 := rfl
    have hi0 : 0 < retries := by omega
    have hi1 : 1 < retries := by omega
    have hi2 : 2 < retries := by omega
    have hn0 : 0 ≠ retries - 1 := by omega
    have hn1 : 1 ≠ retries - 1 := by omega
    unfold fetchWithRetry
    rw [e3, fetchLoop_step_other oracle times window retries baseDelay maxDelay
      2 0 0 ts hi0 hn0 h0]
    rw [e2, fetchLoop_step_other oracle times window retries baseDelay maxDelay
      1 1 1 _ hi1 hn1 h1]
    rw [e1, fetchLoop_step_success oracle times window retries baseDelay maxDelay
      0 2 2 _ v hi2 h2]
    refine ⟨rfl, rfl, ?_⟩
    have hmin : min (baseDelay * 2 ^ 0) maxDelay = baseDelay := by
      rw [pow_zero, mul_one]
      exact min_eq_left hbm
    rw [pow_one] at *
    simp [hmin, hbm]

/-- Witness for backoff_spec: the scenario branch at concrete inputs —
two non-429 failures then a success, with the configured
baseDelay 2000 ms and maxDelay 10000 ms. -/
theorem backoff_spec_witness :
    (fetchWithRetry (fun j => if j < 2 then .failure false else .success (42 : Nat))
      (fun j => (j : Int)) 60000 3 2000 10000 3 []).1 = some (.ok 42) ∧
    (fetchWithRetry (fun j => if j < 2 then .failure false else .success (42 : Nat))
      (fun j => (j : Int)) 60000 3 2000 10000 3 []).2.1 = 3 ∧
    (fetchWithRetry (fun j => if j < 2 then .failure false else .success (42 : Nat))
      (fun j => (j : Int)) 60000 3 2000 10000 3 []).2.2.1 = [2000, min (2000 * 2) 10000] :=
  (backoff_spec (fun j => if j < 2 then .failure false else .success (42 : Nat))
      (fun j => (j : Int)) 60000 3 2000 10000 0 0 0 [] 42).2.2.2
    (by norm_num) (by norm_num) (by norm_num) rfl rfl rfl

/-- When no attempt classifies as a rate-limit error, the loop counter
increments every iteration, so the number of attempts is bounded by
retries - i. -/
theorem fetchLoop_attempts_le {α : Type} (oracle : Nat → FetchOutcome α)
    (times : Nat → Int) (window : Int) (retries : Nat) (baseDelay maxDelay : Int)
    (h429 : ∀ j, oracle j ≠ .failure true) :
    ∀ fuel i k ts,
      (fetchLoop oracle times window retries baseDelay maxDelay fuel i k ts).2.1 ≤
        retries - i := by
  intro fuel
  induction fuel with
  | zero => intro i k ts; simp [fetchLoop]
  | succ n ih =>
    intro i k ts
    by_cases hi : i < retries
    · rcases ho : oracle k with v | is429
      · rw [fetchLoop_step_success oracle times window retries baseDelay maxDelay
          n i k ts v hi ho]
        simp only
        omega
      · rcases is429 with _ | _
        · by_cases hne : i = retries - 1
          · simp only [fetchLoop]
            rw [if_pos hi, ho]
            dsimp only
            rw [if_pos ⟨hne, rfl⟩]
            simp only
            omega
          · rw [fetchLoop_step_other oracle times window retries baseDelay maxDelay
              n i k ts hi hne ho]
            have hr := ih (i + 1) (k + 1) (pruneWindow window (times k) ts ++ [times k])
            simp only
            omega
        · exact absurd ho (h429 k)
    · simp only [fetchLoop]
      rw [if_neg hi]
      simp

/-- A raised-error result carries the classification and index of the
underlying operation failure unchanged: the rethrown error is the one the
oracle produced at that attempt. -/
theorem fetchLoop_error_kind {α : Type} (oracle : Nat → FetchOutcome α)
    (times : Nat → Int) (window : Int) (retries : Nat) (baseDelay maxDelay : Int) :
    ∀ fuel i k ts b j,
      (fetchLoop oracle times window retries baseDelay maxDelay fuel i k ts).1 =
        some (.error (.raised b j)) →
      oracle j = .failure b := by
  intro fuel
  induction fuel with
  | zero => intro i k ts b j h; simp [fetchLoop] at h
  | succ n ih =>
    intro i k ts b j h
    by_cases hi : i < retries
    · rcases ho : oracle k with v | is429
      · rw [fetchLoop_step_success oracle times window retries baseDelay maxDelay
          n i k ts v hi ho] at h
        simp at h
      · by_cases hstop : i = retries - 1 ∧ is429 = false
        · simp only [fetchLoop] at h
          rw [if_pos hi, ho] at h
          dsimp only at h
          rw [if_pos hstop] at h
          simp only [Option.some.injEq, Except.error.injEq, RetryErr.raised.injEq] at h
          rcases h with ⟨hb, hj⟩
          rw [← hj, ← hb]
          exact ho
        · rcases is429 with _ | _
          · have hne : i ≠ retries - 1 := fun he => hstop ⟨he, rfl⟩
            rw [fetchLoop_step_other oracle times window retries baseDelay maxDelay
              n i k ts hi hne ho] at h
            exact ih _ _ _ b j h
          · rw [fetchLoop_step_429 oracle times window retries baseDelay maxDelay
              n i k ts hi ho] at h
            exact ih _ _ _ b j h
    · simp only [fetchLoop] at h
      rw [if_neg hi] at h
      simp at h

/-- A successful result is the value of some single operation invocation:
the loop never assembles a value from more than one attempt (no partial
data). -/
theorem fetchLoop_ok_from_oracle {α : Type} (oracle : Nat → FetchOutcome α)
    (times : Nat → Int) (window : Int) (retries : Nat) (baseDelay maxDelay : Int) :
    ∀ fuel i k ts v,
      (fetchLoop oracle times window retries baseDelay maxDelay fuel i k ts).1 =
        some (.ok v) →
      ∃ j, oracle j = .success v := by
  intro fuel
  induction fuel with
  | zero => intro i k ts v h; simp [fetchLoop] at h
  | succ n ih =>
    intro i k ts v h
    by_cases hi : i < retries
    · rcases ho : oracle k with v0 | is429
      · rw [fetchLoop_step_success oracle times window retries baseDelay maxDelay
          n i k ts v0 hi ho] at h
        simp only [Option.some.injEq, Except.ok.injEq] at h
        exact ⟨k, by rw [ho, h]⟩
      · by_cases hstop : i = retries - 1 ∧ is429 = false
        · simp only [fetchLoop] at h
          rw [if_pos hi, ho] at h
          dsimp only at h
          rw [if_pos hstop] at h
          simp at h
        · rcases is429 with _ | _
          · have hne : i ≠ retries - 1 := fun he => hstop ⟨he, rfl⟩
            rw [fetchLoop_step_other oracle times window retries baseDelay maxDelay
              n i k ts hi hne ho] at h
            exact ih _ _ _ v h
          · rw [fetchLoop_step_429 oracle times window retries baseDelay maxDelay
              n i k ts hi ho] at h
            exact ih _ _ _ v h
    · simp only [fetchLoop] at h
      rw [if_neg hi] at h
      simp at h

/-! ## C4: retry exhaustion -/

/-- C4 counterexample: with an operation that always fails as a rate limit
(429) and maxRetries = 3, ten iterations have already made ten attempts and
the loop is still running — the 429 branch decrements the loop counter
(i = max(0, i-1) before the i++), so the number of attempts is not bounded
by maxRetries, and no FetchExhaustedError is ever produced on this path. -/
theorem retry_unbounded_on_429 :
    3 < (fetchWithRetry (fun _ => (.failure true : FetchOutcome Unit))
      (fun j => (j : Int)) 60000 3 2000 10000 10 []).2.1 ∧
    (fetchWithRetry (fun _ => (.failure true : FetchOutcome Unit))
      (fun j => (j : Int)) 60000 3 2000 10000 10 []).2.1 = 10 ∧
    (fetchWithRetry (fun _ => (.failure true : FetchOutcome Unit))
      (fun j => (j : Int)) 60000 3 2000 10000 10 []).1 = none := by
  refine ⟨by decide, by decide, rfl⟩

/-- C4 amended: for operations that never fail with a rate-limit error the
number of attempts is bounded by maxRetries, and the last error is rethrown
to the caller unchanged in kind (its 429-vs-other classification and the
failing attempt are preserved in the raised error; the code has no
FetchExhaustedError wrapper).  A rate-limit failure decrements the loop
counter, so attempts are unbounded while 429s persist.  Partial data is
never returned: a successful result is exactly the value returned by a
single successful invocation of the operation. -/
theorem fetchWithRetry_spec {α : Type} (oracle : Nat → FetchOutcome α)
    (times : Nat → Int) (window : Int) (retries : Nat) (baseDelay maxDelay : Int)
    (fuel : Nat) (ts : List Int) :
    ((∀ j, oracle j ≠ .failure true) →
      (fetchWithRetry oracle times window retries baseDelay maxDelay fuel ts).2.1 ≤
        retries) ∧
    (∀ b j,
      (fetchWithRetry oracle times window retries baseDelay maxDelay fuel ts).1 =
        some (.error (.raised b j)) →
      oracle j = .failure b) ∧
    (∀ v,
      (fetchWithRetry oracle times window retries baseDelay maxDelay fuel ts).1 =
        some (.ok v) →
      ∃ j, oracle j = .success v) := by
  refine ⟨?_, ?_, ?_⟩
  · intro h429
    have h := fetchLoop_attempts_le oracle times window retries baseDelay maxDelay
      h429 fuel 0 0 ts
    unfold fetchWithRetry
    omega
  · intro b j h
    exact fetchLoop_error_kind oracle times window retries baseDelay maxDelay
      fuel 0 0 ts b j h
  · intro v h
    exact fetchLoop_ok_from_oracle oracle times window retries baseDelay maxDelay
      fuel 0 0 ts v h

/-- Witness for fetchWithRetry_spec: a single-failure-then-success oracle
with no 429s stays within the 3 configured attempts, and its error,
had one been raised, would carry the oracle classification. -/
theorem fetchWithRetry_spec_witness :
    (fetchWithRetry (fun j => if j = 0 then .failure false else .success (7 : Nat))
      (fun j => (j : Int)) 60000 3 2000 10000 5 []).2.1 ≤ 3 :=
  (fetchWithRetry_spec (fun j => if j = 0 then .failure false else .success (7 : Nat))
      (fun j => (j : Int)) 60000 3 2000 10000 5 []).1
    (by intro j; rcases j with _ | j <;> simp)

/-! ## fetchWithCORS cache lemmas -/

/-- The proxy loop never decreases the fetch-call counter. -/
theorem tryProxies_fetchCalls_mono {α : Type} (outcome : Nat → ProxyOutcome α)
    (storeT : Nat → Int) (cacheKey : Option String) :
    ∀ ps st, st.fetchCalls ≤ (tryProxies outcome storeT cacheKey ps st).2.fetchCalls := by
  intro ps
  induction ps with
  | nil => intro st; exact le_rfl
  | cons p rest ih =>
    intro st
    unfold tryProxies
    rcases outcome p with data | _ | c | _
    · rcases cacheKey with _ | k <;> simp
    · dsimp only
      exact le_trans (Nat.le_succ _) (ih ⟨st.cache, st.rl, min (st.backoff * 2) MAX_BACKOFF, st.fetchCalls + 1, st.lastError⟩)
    · dsimp only
      exact le_trans (Nat.le_succ _) (ih ⟨st.cache, st.rl, st.backoff, st.fetchCalls + 1, some (.http c)⟩)
    · dsimp only
      exact le_trans (Nat.le_succ _) (ih ⟨st.cache, st.rl, st.backoff, st.fetchCalls + 1, some .thrown⟩)

/-- A non-empty proxy loop performs at least one fetch call. -/
theorem tryProxies_fetchCalls_pos {α : Type} (outcome : Nat → ProxyOutcome α)
    (storeT : Nat → Int) (cacheKey : Option String) (p : Nat) (ps : List Nat)
    (st : CorsState α) :
    st.fetchCalls + 1 ≤ (tryProxies outcome storeT cacheKey (p :: ps) st).2.fetchCalls := by
  unfold tryProxies
  rcases outcome p with data | _ | c | _
  · rcases cacheKey with _ | k <;> simp
  · dsimp only
    exact tryProxies_fetchCalls_mono outcome storeT cacheKey ps ⟨st.cache, st.rl, min (st.backoff * 2) MAX_BACKOFF, st.fetchCalls + 1, st.lastError⟩
  · dsimp only
    exact tryProxies_fetchCalls_mono outcome storeT cacheKey ps ⟨st.cache, st.rl, st.backoff, st.fetchCalls + 1, some (.http c)⟩
  · dsimp only
    exact tryProxies_fetchCalls_mono outcome storeT cacheKey ps ⟨st.cache, st.rl, st.backoff, st.fetchCalls + 1, some .thrown⟩

/-- The retry loop never decreases the fetch-call counter. -/
theorem corsRetryLoop_fetchCalls_mono {α : Type} (outcome : Nat → Nat → ProxyOutcome α)
    (rlTimes : Nat → Int) (storeT : Nat → Nat → Int) (cacheKey : Option String) :
    ∀ rem retry st, st.fetchCalls ≤
      (corsRetryLoop outcome rlTimes storeT cacheKey rem retry st).2.fetchCalls := by
  intro rem
  induction rem with
  | zero => intro retry st; exact le_rfl
  | succ n ih =>
    intro retry st
    unfold corsRetryLoop
    rcases hc : checkRateLimit (rlTimes retry) st.rl with _ | rl1 <;> dsimp only
    · exact ih (retry + 1) ⟨st.cache, st.rl, min (st.backoff * 2) MAX_BACKOFF, st.fetchCalls, st.lastError⟩
    · rcases htp : tryProxies (outcome retry) (storeT retry) cacheKey [0, 1, 2]
          ⟨st.cache, rl1, st.backoff, st.fetchCalls, st.lastError⟩ with ⟨res, st2⟩
      have h1 : st.fetchCalls ≤ st2.fetchCalls := by
        have h2 := tryProxies_fetchCalls_mono (outcome retry) (storeT retry) cacheKey
          [0, 1, 2] ⟨st.cache, rl1, st.backoff, st.fetchCalls, st.lastError⟩
        rw [htp] at h2
        exact h2
      rcases res with _ | data
      · dsimp only
        by_cases hrc : retry < CORS_MAX_RETRIES
        · rw [if_pos hrc]
          exact le_trans h1 (ih (retry + 1)
            ⟨st2.cache, st2.rl, min (st2.backoff * 2) MAX_BACKOFF, st2.fetchCalls, st2.lastError⟩)
        · rw [if_neg hrc]
          exact le_trans h1 (ih (retry + 1) st2)
      · exact h1

/-- A value returned by the retry loop was stored in the cache under the
requested key on its way out. -/
theorem tryProxies_ok_stores {α : Type} (outcome : Nat → ProxyOutcome α)
    (storeT : Nat → Int) (k : String) :
    ∀ ps st v st2, tryProxies outcome storeT (some k) ps st = (some v, st2) →
      ∃ tS, st2.cache.lookup k = some (v, tS) := by
  intro ps
  induction ps with
  | nil => intro st v st2 h; simp [tryProxies] at h
  | cons p rest ih =>
    intro st v st2 h
    unfold tryProxies at h
    rcases ho : outcome p with data | _ | c | _ <;> rw [ho] at h
    · dsimp only at h
      rcases h with ⟨h1, h2⟩
      exact ⟨storeT p, by simp [setCachedData, List.lookup]⟩
    · exact ih _ v st2 h
    · exact ih _ v st2 h
    · exact ih _ v st2 h

/-- Lifting tryProxies_ok_stores through the retry loop. -/
theorem corsRetryLoop_ok_stores {α : Type} (outcome : Nat → Nat → ProxyOutcome α)
    (rlTimes : Nat → Int) (storeT : Nat → Nat → Int) (k : String) :
    ∀ rem retry st v st2,
      corsRetryLoop outcome rlTimes storeT (some k) rem retry st = (.ok v, st2) →
      ∃ tS, st2.cache.lookup k = some (v, tS) := by
  intro rem
  induction rem with
  | zero => intro retry st v st2 h; simp [corsRetryLoop] at h
  | succ n ih =>
    intro retry st v st2 h
    unfold corsRetryLoop at h
    rcases hc : checkRateLimit (rlTimes retry) st.rl with _ | rl1 <;> rw [hc] at h <;>
      dsimp only at h
    · exact ih _ _ v st2 h
    · rcases htp : tryProxies (outcome retry) (storeT retry) (some k) [0, 1, 2]
          ⟨st.cache, rl1, st.backoff, st.fetchCalls, st.lastError⟩ with ⟨res, st3⟩
      rw [htp] at h
      rcases res with _ | data
      · dsimp only at h
        by_cases hrc : retry < CORS_MAX_RETRIES
        · rw [if_pos hrc] at h
          exact ih _ _ v st2 h
        · rw [if_neg hrc] at h
          exact ih _ _ v st2 h
      · dsimp only at h
        injection h with h1 h2
        rcases tryProxies_ok_stores (outcome retry) (storeT retry) k
            [0, 1, 2] ⟨st.cache, rl1, st.backoff, st.fetchCalls, st.lastError⟩ data st3 htp
          with ⟨tS, hts⟩
        refine ⟨tS, ?_⟩
        rw [← h2]
        rw [hts]
        exact congrArg (fun w => some (w, tS)) (Except.ok.inj h1)

/-! ## C5: cache TTL -/

/-- C5: a live cache entry (now - storedAt < ttl) short-circuits
fetchWithCORS: the cached value is returned with the entire module state
unchanged — no proxy fetch, no rate-limit accounting; a successful network
fetch stores the value under the key; and a stale entry (now - storedAt >=
ttl) is a miss, so the operation is invoked again (at least one fetch call)
whenever the rate limiter admits the first attempt. -/
theorem fetchCache_spec {α : Type} (outcome : Nat → Nat → ProxyOutcome α)
    (rlTimes : Nat → Int) (storeT : Nat → Nat → Int) (k : String)
    (dur now0 : Int) (st : CorsState α) (v : α) :
    (getCachedData st.cache k dur now0 = some v →
      fetchWithCORS outcome rlTimes storeT (some k) dur now0 st = (.ok v, st)) ∧
    (∀ tS, st.cache.lookup k = some (v, tS) → now0 - tS < dur →
      fetchWithCORS outcome rlTimes storeT (some k) dur now0 st = (.ok v, st)) ∧
    (∀ st2, getCachedData st.cache k dur now0 = none →
      fetchWithCORS outcome rlTimes storeT (some k) dur now0 st = (.ok v, st2) →
      ∃ tS, st2.cache.lookup k = some (v, tS)) ∧
    (∀ tS rl1, st.cache.lookup k = some (v, tS) → dur ≤ now0 - tS →
      checkRateLimit (rlTimes 0) st.rl = some rl1 →
      st.fetchCalls <
        (fetchWithCORS outcome rlTimes storeT (some k) dur now0 st).2.fetchCalls) := by
  refine ⟨?_, ?_, ?_, ?_⟩
  · intro hhit
    unfold fetchWithCORS
    dsimp only
    rw [hhit]
  · intro tS hlk hlive
    have hhit : getCachedData st.cache k dur now0 = some v := by
      unfold getCachedData
      rw [hlk]
      dsimp only
      rw [if_pos hlive]
    unfold fetchWithCORS
    dsimp only
    rw [hhit]
  · intro st2 hmiss hok
    unfold fetchWithCORS at hok
    dsimp only at hok
    rw [hmiss] at hok
    exact corsRetryLoop_ok_stores outcome rlTimes storeT k _ 0 st v st2 hok
  · intro tS rl1 hlk hstale hrladm
    have hmiss : getCachedData st.cache k dur now0 = none := by
      unfold getCachedData
      rw [hlk]
      dsimp only
      rw [if_neg (by omega)]
    unfold fetchWithCORS
    dsimp only
    rw [hmiss]
    show st.fetchCalls <
      (corsRetryLoop outcome rlTimes storeT (some k) (CORS_MAX_RETRIES + 1) 0 st).2.fetchCalls
    unfold corsRetryLoop
    rw [hrladm]
    dsimp only
    rcases htp : tryProxies (outcome 0) (storeT 0) (some k) [0, 1, 2]
        ⟨st.cache, rl1, st.backoff, st.fetchCalls, st.lastError⟩ with ⟨res, st3⟩
    have h1 : st.fetchCalls + 1 ≤ st3.fetchCalls := by
      have h0 := tryProxies_fetchCalls_pos (outcome 0) (storeT 0) (some k) 0 [1, 2]
        ⟨st.cache, rl1, st.backoff, st.fetchCalls, st.lastError⟩
      rw [htp] at h0
      exact h0
    rcases res with _ | data
    · dsimp only
      rw [if_pos (by decide : (0 : Nat) < CORS_MAX_RETRIES)]
      have h2 := corsRetryLoop_fetchCalls_mono outcome rlTimes storeT (some k)
        CORS_MAX_RETRIES (0 + 1)
        ⟨st3.cache, st3.rl, min (st3.backoff * 2) MAX_BACKOFF, st3.fetchCalls, st3.lastError⟩
      dsimp only at h2
      omega
    · dsimp only
      omega

/-- Witness for fetchCache_spec: a live entry stored at time 0 read again
at time 1000 with a 2-minute TTL is served from cache with the state
untouched. -/
theorem fetchCache_spec_witness :
    fetchWithCORS (fun _ _ => (.exn : ProxyOutcome Nat)) (fun _ => 1000) (fun _ _ => 1000)
      (some "prices") CACHE_DURATION 1000
      ⟨[("prices", 42, 0)], ⟨0, 0⟩, INITIAL_BACKOFF, 0, none⟩ =
      (.ok 42, ⟨[("prices", 42, 0)], ⟨0, 0⟩, INITIAL_BACKOFF, 0, none⟩) :=
  (fetchCache_spec (fun _ _ => (.exn : ProxyOutcome Nat)) (fun _ => 1000) (fun _ _ => 1000)
      "prices" CACHE_DURATION 1000
      ⟨[("prices", 42, 0)], ⟨0, 0⟩, INITIAL_BACKOFF, 0, none⟩ 42).2.1 0 rfl
    (by unfold CACHE_DURATION; norm_num)

/-! ## Rate limiter lemmas (canMakeRequest / waitForRateLimit) -/

/-- After pruning, the oldest surviving timestamp is inside the window:
the shift loop stops at the first timestamp with t >= now - window. -/
theorem pruneWindow_head_ge (window now : Int) :
    ∀ ts o rest, pruneWindow window now ts = o :: rest → now - window ≤ o := by
  intro ts
  induction ts with
  | nil => intro o rest h; simp [pruneWindow] at h
  | cons a l ih =>
    intro o rest h
    unfold pruneWindow at h
    rw [List.dropWhile_cons] at h
    by_cases ha : a < now - window
    · rw [if_pos (by simpa using ha)] at h
      exact ih o rest h
    · rw [if_neg (by simpa using ha)] at h
      rcases h with ⟨rfl, rfl⟩
      omega

/-- Pruning never lengthens the array. -/
theorem pruneWindow_length_le (window now : Int) (ts : List Int) :
    (pruneWindow window now ts).length ≤ ts.length :=
  (List.dropWhile_sublist _).length_le

/-- When the head survives pruning, nothing is dropped. -/
theorem pruneWindow_cons_keep (window now o : Int) (rest : List Int)
    (h : ¬ o < now - window) :
    pruneWindow window now (o :: rest) = o :: rest := by
  unfold pruneWindow
  rw [List.dropWhile_cons, if_neg (by simpa using h)]

/-- When the head is stale, pruning continues on the tail. -/
theorem pruneWindow_cons_drop (window now o : Int) (rest : List Int)
    (h : o < now - window) :
    pruneWindow window now (o :: rest) = pruneWindow window now rest := by
  unfold pruneWindow
  rw [List.dropWhile_cons, if_pos (by simpa using h)]

/-- Any successful admission happens no earlier than the call, and returns
the pruned array of the admission instant extended by the admission
timestamp — so its length never exceeds maxReq. -/
theorem waitForRateLimit_result (window : Int) (maxReq : Nat) (adv : Int → Int → Int)
    (hadv2 : ∀ n w, n < adv n w) :
    ∀ fuel now ts t2 l, waitForRateLimit window maxReq adv fuel now ts = some (t2, l) →
      now ≤ t2 ∧ l.length ≤ maxReq ∧
      ∃ ts3, l = pruneWindow window t2 ts3 ++ [t2] := by
  intro fuel
  induction fuel with
  | zero => intro now ts t2 l h; simp [waitForRateLimit] at h
  | succ n ih =>
    intro now ts t2 l h
    unfold waitForRateLimit at h
    dsimp only at h
    by_cases hadm : (pruneWindow window now ts).length < maxReq
    · rw [if_pos hadm] at h
      rcases h with ⟨rfl, rfl⟩
      refine ⟨le_rfl, ?_, ts, rfl⟩
      simp
      omega
    · rw [if_neg hadm] at h
      rcases hp : pruneWindow window now ts with _ | ⟨o, rest⟩ <;> rw [hp] at h
      · simp at h
      · rcases ih _ _ _ _ h with ⟨h1, h2, h3⟩
        exact ⟨le_trans (le_of_lt (hadv2 now (window - (now - o)))) h1, h2, h3⟩

/-- The admission recursion terminates: with time advancing strictly at
each turn and by at least the computed wait, 2 * (pruned length) + 2 turns
always suffice — the caller never busy-loops. -/
theorem waitForRateLimit_terminates (window : Int) (maxReq : Nat)
    (adv : Int → Int → Int) (hadv1 : ∀ n w, n + w ≤ adv n w)
    (hadv2 : ∀ n w, n < adv n w) (hmax : 1 ≤ maxReq) :
    ∀ k fuel now ts, (pruneWindow window now ts).length = k → 2 * k + 2 ≤ fuel →
      (waitForRateLimit window maxReq adv fuel now ts).isSome := by
  intro k
  induction k using Nat.strong_induction_on with
  | _ k ih =>
    intro fuel now ts hk hfuel
    obtain ⟨f, rfl⟩ : ∃ f, fuel = f + 1 := ⟨fuel - 1, by omega⟩
    unfold waitForRateLimit
    dsimp only
    by_cases hadm : (pruneWindow window now ts).length < maxReq
    · rw [if_pos hadm]
      simp
    · rw [if_neg hadm]
      rcases hp : pruneWindow window now ts with _ | ⟨o, rest⟩
      · rw [hp] at hadm
        simp at hadm
        omega
      · rw [hp] at hk
        have hw : now - window ≤ o := pruneWindow_head_ge window now ts o rest hp
        have hnow1 : o + window ≤ adv now (window - (now - o)) := by
          have := hadv1 now (window - (now - o))
          omega
        by_cases hdrop : o < adv now (window - (now - o)) - window
        · have hsm : pruneWindow window (adv now (window - (now - o))) (o :: rest) =
              pruneWindow window (adv now (window - (now - o))) rest :=
            pruneWindow_cons_drop _ _ _ _ hdrop
          have hk1 : (pruneWindow window (adv now (window - (now - o))) (o :: rest)).length < k := by
            have h2 := pruneWindow_length_le window (adv now (window - (now - o))) rest
            rw [hsm]
            simp at hk
            omega
          exact ih _ hk1 f _ (o :: rest) rfl (by omega)
        · have hsame : pruneWindow window (adv now (window - (now - o))) (o :: rest) =
              o :: rest := pruneWindow_cons_keep _ _ _ _ hdrop
          obtain ⟨f2, rfl⟩ : ∃ f2, f = f2 + 1 := ⟨f - 1, by omega⟩
          unfold waitForRateLimit
          dsimp only
          by_cases hadm2 : (pruneWindow window (adv now (window - (now - o))) (o :: rest)).length < maxReq
          · rw [if_pos hadm2]
            simp
          · rw [if_neg hadm2]
            rcases hp2 : pruneWindow window (adv now (window - (now - o))) (o :: rest)
              with _ | ⟨o2, rest2⟩
            · rw [hsame] at hp2
              cases hp2
            · rw [hsame] at hp2
              injection hp2 with ho2 hrest2
              subst ho2
              subst hrest2
              have hgt2 : adv now (window - (now - o)) <
                  adv (adv now (window - (now - o)))
                    (window - (adv now (window - (now - o)) - o)) := hadv2 _ _
              have hdrop2 : o < adv (adv now (window - (now - o)))
                  (window - (adv now (window - (now - o)) - o)) - window := by
                omega
              have hsm2 : pruneWindow window
                  (adv (adv now (window - (now - o)))
                    (window - (adv now (window - (now - o)) - o))) (o :: rest) =
                  pruneWindow window
                    (adv (adv now (window - (now - o)))
                      (window - (adv now (window - (now - o)) - o))) rest :=
                pruneWindow_cons_drop _ _ _ _ hdrop2
              have hk2 : (pruneWindow window
                  (adv (adv now (window - (now - o)))
                    (window - (adv now (window - (now - o)) - o))) (o :: rest)).length < k := by
                have h2 := pruneWindow_length_le window
                  (adv (adv now (window - (now - o)))
                    (window - (adv now (window - (now - o)) - o))) rest
                rw [hsm2]
                simp at hk
                omega
              exact ih _ hk2 f2 _ (o :: rest) rfl (by omega)

/-- A caller that finds the window full is admitted no earlier than
windowDuration after the oldest recorded timestamp. -/
theorem waitForRateLimit_delay_bound (window : Int) (maxReq : Nat)
    (adv : Int → Int → Int) (hadv1 : ∀ n w, n + w ≤ adv n w)
    (hadv2 : ∀ n w, n < adv n w) :
    ∀ fuel now ts o rest t2 l,
      pruneWindow window now ts = o :: rest →
      ¬ (pruneWindow window now ts).length < maxReq →
      waitForRateLimit window maxReq adv fuel now ts = some (t2, l) →
      o + window ≤ t2 := by
  intro fuel now ts o rest t2 l hp hadm h
  rcases fuel with _ | f
  · simp [waitForRateLimit] at h
  · unfold waitForRateLimit at h
    dsimp only at h
    rw [if_neg hadm, hp] at h
    dsimp only at h
    have h1 := (waitForRateLimit_result window maxReq adv hadv2 f _ _ _ _ h).1
    have h2 := hadv1 now (window - (now - o))
    omega

/-! ## C3: sliding-window rate limiter -/

/-- C3: a request is admitted exactly when, after pruning timestamps older
than windowDuration, the window holds fewer than maxRequestsPerWindow
entries (so any admitted result array has length at most the maximum, the
admission timestamp being appended to the pruned array); a non-admitted
caller retries after waiting exactly windowDuration - (now - oldest); under
the event-loop guarantees (each wake is at or after the requested instant
and strictly later than the turn that scheduled it) the recursion always
terminates within 2·(pruned length) + 2 turns — never busy-looping and never
failing — and a caller that found the window full is admitted no earlier
than windowDuration after the oldest recorded timestamp. -/
theorem rateLimiter_spec (window : Int) (maxReq : Nat) (adv : Int → Int → Int)
    (now : Int) (ts : List Int) (fuel : Nat) :
    ((canMakeRequest window maxReq now ts).1 = true ↔
      (pruneWindow window now ts).length < maxReq) ∧
    ((pruneWindow window now ts).length < maxReq →
      waitForRateLimit window maxReq adv (fuel + 1) now ts =
        some (now, pruneWindow window now ts ++ [now])) ∧
    ((∀ n w, n < adv n w) → ∀ t2 l,
      waitForRateLimit window maxReq adv fuel now ts = some (t2, l) →
      l.length ≤ maxReq ∧ now ≤ t2) ∧
    (∀ o rest, pruneWindow window now ts = o :: rest →
      ¬ (pruneWindow window now ts).length < maxReq →
      waitForRateLimit window maxReq adv (fuel + 1) now ts =
        waitForRateLimit window maxReq adv fuel (adv now (window - (now - o))) (o :: rest)) ∧
    ((∀ n w, n + w ≤ adv n w) → (∀ n w, n < adv n w) → 1 ≤ maxReq →
      2 * (pruneWindow window now ts).length + 2 ≤ fuel →
      (waitForRateLimit window maxReq adv fuel now ts).isSome) ∧
    ((∀ n w, n + w ≤ adv n w) → (∀ n w, n < adv n w) → ∀ o rest t2 l,
      pruneWindow window now ts = o :: rest →
      ¬ (pruneWindow window now ts).length < maxReq →
      waitForRateLimit window maxReq adv fuel now ts = some (t2, l) →
      o + window ≤ t2) := by
  refine ⟨by simp [canMakeRequest], ?_, ?_, ?_, ?_, ?_⟩
  · intro hadm
    unfold waitForRateLimit
    dsimp only
    rw [if_pos hadm]
  · intro hadv2 t2 l h
    rcases waitForRateLimit_result window maxReq adv hadv2 fuel now ts t2 l h
      with ⟨h1, h2, _⟩
    exact ⟨h2, h1⟩
  · intro o rest hp hadm
    rw [waitForRateLimit.eq_def]
    dsimp only
    rw [if_neg hadm, hp]
  · intro hadv1 hadv2 hmax hfuel
    exact waitForRateLimit_terminates window maxReq adv hadv1 hadv2 hmax
      (pruneWindow window now ts).length fuel now ts rfl hfuel
  · intro hadv1 hadv2 o rest t2 l hp hadm h
    exact waitForRateLimit_delay_bound window maxReq adv hadv1 hadv2
      fuel now ts o rest t2 l hp hadm h

/-- Witness for rateLimiter_spec: a full window of one timestamp at 0,
queried at time 5 with a 60 s window — the recursion terminates within the
computed bound. -/
theorem rateLimiter_spec_witness :
    (waitForRateLimit 60000 1 (fun n w => n + max w 0 + 1) 4 5 [0]).isSome :=
  (rateLimiter_spec 60000 1 (fun n w => n + max w 0 + 1) 5 [0] 4).2.2.2.2.1
    (fun n w => by omega) (fun n w => by omega) (by omega) (by decide)

end BullArc
